import Mathlib

/-!
A formal model of `restore_from_backup.py`, a command-line tool that restores
CRM or Sales application data from a zip backup archive into a target data
directory.

Modelling conventions:

* Python `str` values are sequences of code points; Lean `String` (logically
  a `List Char`) models them exactly, and string operations of the script
  (`startswith`, `endswith`, slicing, `in`) are defined below on `.data`.
* Filesystem paths are raw strings, `/`-separated; the script performs no
  path normalisation on the paths it manipulates, so none is modelled.
* The filesystem is a map from paths to regular files; a file is its bytes
  plus one `mtime` stamp standing for the metadata `shutil.copy2` preserves.
  Directories are implicit: `mkdir(parents=True, exist_ok=True)` and
  directory creation during extraction never fail and create no files.
* `zipfile.extract` does not restore archive timestamps, so every file in
  the extracted temporary tree carries the extraction time `extractTime`;
  `copy2` out of that tree preserves it.
* The temporary directory produced by `tempfile.TemporaryDirectory()` is a
  fresh directory removed on every exit of the `with` block; in `runMain`
  (the happy-path semantics) the extracted tree is therefore modelled as a
  scratch area disjoint from the ambient filesystem, while `withTempDir` /
  `restoreBody` below model the same block with explicit temporary files
  and injected I/O failures to establish the cleanup guarantee.
* `print` events are modelled as structured messages (`Msg`) rather than
  formatted text, so statements about reporting are independent of repr.
-/

namespace Restore

/-- A regular file: bytes plus the metadata (modelled as one mtime stamp)
that `shutil.copy2` preserves. -/
structure File where
  content : String
  mtime : Nat
deriving DecidableEq, Repr

/-- Paths are raw `/`-separated strings. -/
abbrev Path := String

/-- The filesystem: regular files only, directories implicit. -/
abbrev FS := Path → Option File

/-- Create or overwrite one file. -/
def writeFile (fs : FS) (p : Path) (f : File) : FS :=
  fun q => if q = p then some f else fs q

/-- One member of the zip archive: entry name and file bytes.  Entries whose
name ends in `/` are directory entries. -/
structure ZEntry where
  name : String
  content : String
deriving DecidableEq, Repr

/-- The backup archive: its list of entries, in `namelist()` order. -/
abbrev Archive := List ZEntry

/-! ### Python string operations, on the code-point representation -/

/-- `chStarts p l` holds when `p` is an initial segment of `l`. -/
def chStarts : List Char → List Char → Bool
  | [], _ => true
  | _ :: _, [] => false
  | p :: ps, c :: cs => p == c && chStarts ps cs

/-- Python `s.startswith(p)`. -/
def strStartsWith (s p : String) : Bool :=
  chStarts p.data s.data

/-- Python `s.endswith(p)`. -/
def strEndsWith (s p : String) : Bool :=
  chStarts p.data.reverse s.data.reverse

/-- Python `c in s` for a single character. -/
def strContains (s : String) (c : Char) : Bool :=
  decide (c ∈ s.data)

/-- Python `s[n:]` (drop the first `n` code points). -/
def strDrop (s : String) (n : Nat) : String :=
  ⟨s.data.drop n⟩

/-- Code-point-lexicographic comparison of character lists, as Python `<=`
on strings. -/
def chLe : List Char → List Char → Bool
  | [], _ => true
  | _ :: _, [] => false
  | a :: as, b :: bs =>
    if a.toNat < b.toNat then true
    else if b.toNat < a.toNat then false
    else chLe as bs

/-- Python string comparison `a <= b` (code-point lexicographic), the order
used by `sorted`. -/
def strLe (a b : String) : Bool :=
  chLe a.data b.data

/-- Insert into a `strLe`-sorted list, keeping it sorted. -/
def insertSorted (x : String) : List String → List String
  | [] => [x]
  | y :: ys => if strLe x y then x :: y :: ys else y :: insertSorted x ys

/-- Python `sorted` on a list of distinct strings: the (unique) `strLe`-sorted
permutation, computed by insertion sort. -/
def sortNames (l : List String) : List String :=
  l.foldr insertSorted []

/-! ### `pathlib` operations used by the script -/

/-- `PurePath.__truediv__`: `a / b` for a relative `b`. -/
def pjoin (a b : Path) : Path :=
  a ++ "/" ++ b

/-- `PurePath.name`: the final path component (the longest suffix free of
`/`). -/
def nameOf (p : Path) : List Char :=
  (p.data.reverse.takeWhile (fun c => decide (c ≠ '/'))).reverse

/-- `PurePath.suffix`: the extension of the final component, beginning at
its last dot, empty when the last dot is absent, leading or trailing
(CPython: `i = name.rfind('.')`, returned slice iff `0 < i < len(name)-1`). -/
def suffixOf (p : Path) : List Char :=
  if ((nameOf p).reverse.takeWhile (fun c => decide (c ≠ '.'))).length ≠ 0 ∧
      ((nameOf p).reverse.takeWhile (fun c => decide (c ≠ '.'))).length + 1 < (nameOf p).length
  then '.' :: ((nameOf p).reverse.takeWhile (fun c => decide (c ≠ '.'))).reverse
  else []

/-- `PurePath.with_suffix`: replace the suffix of the final component
(CPython drops `len(suffix)` trailing characters of the name and appends
the new suffix). -/
def withSuffix (p : Path) (newSuffix : List Char) : Path :=
  ⟨p.data.take (p.data.length - (suffixOf p).length) ++ newSuffix⟩

/-! ### The script's definitions -/

/-- `CRM_EXPORT_MARKER`. -/
def CRM_EXPORT_MARKER : String := "exports/ps_crm.sql"

/-- `SALES_EXPORT_MARKER`. -/
def SALES_EXPORT_MARKER : String := "exports/ps_sales.sql"

/-- The two supported applications (`--app` choices). -/
inductive App
  | crm
  | sales
deriving DecidableEq, Repr

/-- `_detect_app`: membership of the fixed marker entries in the archive's
entry-name set, CRM checked first. -/
def detectApp (names : List String) : Option App :=
  if CRM_EXPORT_MARKER ∈ names then some App.crm
  else if SALES_EXPORT_MARKER ∈ names then some App.sales
  else none

/-- `args.app or _detect_app(archive)`: an explicit identity is used
unconditionally, otherwise detection runs. -/
def resolveApp (explicit : Option App) (names : List String) : Option App :=
  match explicit with
  | some a => some a
  | none => detectApp names

/-- The environment/configuration the path resolvers consult.  `none`
models an unset environment variable (`some ""` is set-but-empty). -/
structure Env where
  appStorageDir : Option String
  dbPathVar : Option String
  psSalesDbUrl : Option String
  storageDirDefault : Path
  salesConfigDataDir : Path

/-- `os.getenv(var, default)`. -/
def getenv (v : Option String) (dflt : String) : String :=
  v.getD dflt

/-- Python truthiness of an `Optional[str]`. -/
def optTruthy : Option String → Bool
  | none => false
  | some s => s != ""

/-- `_crm_paths`:  data dir = truthy override, else
`os.getenv("APP_STORAGE_DIR", get_storage_dir())`; database path =
`os.getenv("DB_PATH", str(base_dir / "ps_crm.db"))`.  (`expanduser` is the
identity here: no `~`-relative inputs are modelled.) -/
def crmPaths (env : Env) (dataDirOverride : Option String) : Path × Path :=
  let baseDir :=
    if optTruthy dataDirOverride then dataDirOverride.getD ""
    else getenv env.appStorageDir env.storageDirDefault
  let dbPath := getenv env.dbPathVar (pjoin baseDir "ps_crm.db")
  (baseDir, dbPath)

/-- `_sales_paths`: data dir = truthy override, else
`load_config().data_dir`; database path from `PS_SALES_DB_URL` (stripping a
leading `sqlite:///`) when that variable is non-empty, else
`data_dir / "ps_sales.db"`. -/
def salesPaths (env : Env) (dataDirOverride : Option String) : Path × Path :=
  let dataDir :=
    if optTruthy dataDirOverride then dataDirOverride.getD ""
    else env.salesConfigDataDir
  let dbUrl := getenv env.psSalesDbUrl ""
  let dbPath :=
    if dbUrl != "" then
      if strStartsWith dbUrl "sqlite:///" then strDrop dbUrl "sqlite:///".length
      else dbUrl
    else pjoin dataDir "ps_sales.db"
  (dataDir, dbPath)

/-- `_backup_existing_db`: nothing when no file exists at `dbPath`;
otherwise `copy2` the file to
`db_path.with_suffix(db_path.suffix + ".bak_" + timestamp)` and return that
path.  `ts` is `time.strftime("%Y%m%d_%H%M%S")` for the run. -/
def backupExistingDb (fs : FS) (ts : String) (dbPath : Path) :
    Option Path × FS :=
  match fs dbPath with
  | none => (none, fs)
  | some f =>
    let backupPath := withSuffix dbPath (suffixOf dbPath ++ (".bak_" ++ ts).data)
    (some backupPath, writeFile fs backupPath f)

/-- Content a path holds after `extractall`: the last archive entry with
that name wins (later members overwrite earlier ones on disk). -/
def extractedContent (archive : Archive) (n : String) : Option String :=
  archive.foldl (fun acc e => if e.name = n then some e.content else acc) none

/-- `sorted(db_dir.glob("*.db"))` on the extracted tree: names of regular
direct children of `database/` ending in `.db` (each disk file once),
sorted by Python string order. -/
def dbCandidates (names : List String) : List String :=
  sortNames ((names.filter (fun n =>
      strStartsWith n "database/" && !(strContains (strDrop n 9) '/')
        && strEndsWith n ".db")).dedup)

/-- The regular files of the extracted `storage/` tree (`rglob("*")`
filtered by `is_file()`): entries under the prefix that are not directory
entries, each disk file once. -/
def storageFileNames (archive : Archive) : List String :=
  ((archive.map (fun e => e.name)).filter (fun n =>
    strStartsWith n "storage/" && !(strEndsWith n "/"))).dedup

/-- `tmp/storage` exists after extraction (as a directory, or as a file for
a degenerate entry named exactly `storage`). -/
def storageSubtreeExists (names : List String) : Bool :=
  names.any (fun n => n == "storage" || strStartsWith n "storage/")

/-- `_copy_tree` from the extracted storage tree into `dataDir`: each
regular file lands at its relative path, bytes and metadata preserved; the
extracted files carry the extraction time `extractTime`. -/
def copyStorage (archive : Archive) (dataDir : Path) (extractTime : Nat)
    (fs : FS) : FS :=
  (storageFileNames archive).foldl
    (fun acc n =>
      writeFile acc (pjoin dataDir (strDrop n 8))
        ⟨(extractedContent archive n).getD "", extractTime⟩)
    fs

/-- The script's `print` events, structured. -/
inductive Msg
  | appLine (app : App)
  | dataDirLine (p : Path)
  | dbPathLine (p : Path)
  | storageCountLine (n : Nat)
  | dbFilesLine (files : List String)
  | backedUp (p : Path)
  | restoredDb (p : Path)
  | noDb
  | restoredStorage (count : Nat) (dir : Path)
  | noStorage
  | errArchiveNotFound (p : Path)
  | errCannotDetect
deriving DecidableEq, Repr

/-- The database half of the restore block (lines 133-146 of the script):
when a candidate exists, back up any existing destination database, then
`copy2` the first sorted candidate over `dbPath`; otherwise report the
skip.  Returns the messages printed and the resulting filesystem. -/
def dbRestoreStep (archive : Archive) (ts : String) (extractTime : Nat)
    (dbPath : Path) (fs : FS) : List Msg × FS :=
  let cands := dbCandidates (archive.map (fun e => e.name))
  if cands.isEmpty then ([Msg.noDb], fs)
  else
    let b := backupExistingDb fs ts dbPath
    let preMsgs :=
      match b.1 with
      | some bp => [Msg.backedUp bp]
      | none => ([] : List Msg)
    (preMsgs ++ [Msg.restoredDb dbPath],
     writeFile b.2 dbPath
       ⟨(extractedContent archive cands.headI).getD "", extractTime⟩)

/-- The storage half of the restore block (lines 148-153): when the
extracted storage path exists, create the data directory and copy the tree;
otherwise report the skip. -/
def storageRestoreStep (archive : Archive) (extractTime : Nat)
    (dataDir : Path) (fs : FS) : List Msg × FS :=
  if storageSubtreeExists (archive.map (fun e => e.name)) then
    ([Msg.restoredStorage (storageFileNames archive).length dataDir],
     copyStorage archive dataDir extractTime fs)
  else ([Msg.noStorage], fs)

/-- The whole non-dry-run restore block: database step, then storage
step. -/
def restoreStep (archive : Archive) (ts : String) (extractTime : Nat)
    (dataDir dbPath : Path) (fs : FS) : List Msg × FS :=
  let d := dbRestoreStep archive ts extractTime dbPath fs
  let s := storageRestoreStep archive extractTime dataDir d.2
  (d.1 ++ s.1, s.2)

/-- The parsed command line. -/
structure Args where
  backup : Path
  app : Option App
  dataDir : Option String
  dryRun : Bool

/-- Outcome of one invocation: exit code, what was printed to stdout and to
stderr, and the resulting filesystem. -/
structure RunResult where
  exitCode : Nat
  stdout : List Msg
  stderr : List Msg
  fs : FS

/-- The path resolution `main` performs once the app is known. -/
def appPaths (env : Env) (dataDirOverride : Option String) : App → Path × Path
  | App.crm => crmPaths env dataDirOverride
  | App.sales => salesPaths env dataDirOverride

/-- `main()`.  `archiveFile` is the parse of the file at `args.backup`
(`none` when that path does not exist); `ts` is the run's
`time.strftime("%Y%m%d_%H%M%S")`; `extractTime` the mtime of files written
by `extractall`. -/
def runMain (env : Env) (ts : String) (extractTime : Nat) (args : Args)
    (archiveFile : Option Archive) (fs : FS) : RunResult :=
  match archiveFile with
  | none =>
    { exitCode := 2, stdout := [], stderr := [Msg.errArchiveNotFound args.backup],
      fs := fs }
  | some archive =>
    let names := archive.map (fun e => e.name)
    match resolveApp args.app names with
    | none =>
      { exitCode := 2, stdout := [], stderr := [Msg.errCannotDetect], fs := fs }
    | some app =>
      let paths := appPaths env args.dataDir app
      let dataDir := paths.1
      let dbPath := paths.2
      if args.dryRun then
        { exitCode := 0,
          stdout :=
            [Msg.appLine app, Msg.dataDirLine dataDir, Msg.dbPathLine dbPath,
             Msg.storageCountLine
               (names.filter (fun n => strStartsWith n "storage/")).length,
             Msg.dbFilesLine (names.filter (fun n => strStartsWith n "database/"))],
          stderr := [], fs := fs }
      else
        let r := restoreStep archive ts extractTime dataDir dbPath fs
        { exitCode := 0, stdout := r.1, stderr := [], fs := r.2 }

/-! ### Concrete fixtures used to instantiate the theorems -/

/-- An environment with no variables set. -/
def envA : Env := ⟨none, none, none, "/data", "/sales"⟩

/-- The empty filesystem. -/
def fsEmpty : FS := fun _ => none

/-- A filesystem holding one database file at the default CRM location. -/
def fsOrig : FS := fun p => if p = "/data/ps_crm.db" then some ⟨"ORIG", 3⟩ else none

/-- `--backup b.zip --app crm`. -/
def argsCrm : Args := ⟨"b.zip", some App.crm, none, false⟩

/-- `--backup b.zip`, optionally `--dry-run`. -/
def argsAuto (dry : Bool) : Args := ⟨"b.zip", none, none, dry⟩

/-- An archive whose storage tree contains a file landing on the resolved
CRM database path. -/
def arcOverwrite : Archive := [⟨"database/z.db", "NEW"⟩, ⟨"storage/ps_crm.db", "OLD"⟩]

/-- An archive whose storage tree contains a file landing on the timestamped
backup path for `ts = 20240101_120000`. -/
def arcBakClash : Archive :=
  [⟨"database/z.db", "NEW"⟩, ⟨"storage/ps_crm.db.bak_20240101_120000", "EVIL"⟩]

/-- An archive with the CRM marker and a degenerate entry named exactly
`storage`. -/
def arcStorageFile : Archive := [⟨"exports/ps_crm.sql", "x"⟩, ⟨"storage", "f"⟩]

/-- A well-formed CRM archive with nested storage and two database files. -/
def arcPlain : Archive :=
  [⟨"exports/ps_crm.sql", "x"⟩, ⟨"storage/a/b.txt", "T"⟩,
   ⟨"database/b.db", "B"⟩, ⟨"database/a.db", "A"⟩]

/-- A CRM archive with no storage and no database entries. -/
def arcMarkerOnly : Archive := [⟨"exports/ps_crm.sql", "x"⟩]

/-! ### The `with tempfile.TemporaryDirectory()` block, with injected I/O
failures

`runMain` gives the happy-path semantics; the definitions below model the
same non-dry-run block over a filesystem that contains the temporary
directory explicitly, with an oracle injecting the I/O failures the script
does not catch (a failing `extractall`, a failing `copy2`).  The context
manager removes the temporary directory and everything under it on every
exit, normal or raised. -/

/-- Injected I/O failures: `extractOk` entries extract before `extractall`
raises (`archive.length ≤ extractOk` means extraction completes);
`copyFails p` says a `copy2` whose destination is `p` raises. -/
structure IOOracle where
  extractOk : Nat
  copyFails : Path → Bool

/-- `p` is the temporary directory or lies under it. -/
def underTmp (tmp p : Path) : Bool :=
  p == tmp || strStartsWith p (tmp ++ "/")

/-- `extractall` up to the first failure: each extracted entry becomes a
file under `tmp` carrying the extraction time. -/
def extractList (tmp : Path) (es : List ZEntry) (extractTime : Nat)
    (fs : FS) : FS :=
  es.foldl (fun acc e => writeFile acc (pjoin tmp e.name) ⟨e.content, extractTime⟩) fs

/-- A sequence of `copy2` writes, stopping at the first injected failure;
the Bool records whether an exception was raised. -/
def copySeq (oracle : IOOracle) : List (Path × File) → FS → Bool × FS
  | [], fs => (false, fs)
  | (p, f) :: rest, fs =>
    if oracle.copyFails p then (true, fs)
    else copySeq oracle rest (writeFile fs p f)

/-- The body of the `with` block: extraction, database restore, storage
copy, any step possibly raising per the oracle.  The Bool records whether
the block exited by a raised error. -/
def restoreBody (oracle : IOOracle) (tmp : Path) (archive : Archive)
    (ts : String) (extractTime : Nat) (dbPath dataDir : Path) (fs : FS) :
    Bool × FS :=
  let fs1 := extractList tmp (archive.take oracle.extractOk) extractTime fs
  if archive.length ≤ oracle.extractOk then
    let names := archive.map (fun e => e.name)
    let cands := dbCandidates names
    let dbRes :=
      if cands.isEmpty then (false, fs1)
      else
        let cand : File :=
          ⟨(extractedContent archive cands.headI).getD "", extractTime⟩
        match fs1 dbPath with
        | some f =>
          let bp := withSuffix dbPath (suffixOf dbPath ++ (".bak_" ++ ts).data)
          if oracle.copyFails bp then (true, fs1)
          else
            let fs2 := writeFile fs1 bp f
            if oracle.copyFails dbPath then (true, fs2)
            else (false, writeFile fs2 dbPath cand)
        | none =>
          if oracle.copyFails dbPath then (true, fs1)
          else (false, writeFile fs1 dbPath cand)
    if dbRes.1 then dbRes
    else if storageSubtreeExists names then
      copySeq oracle
        ((storageFileNames archive).map (fun n =>
          (pjoin dataDir (strDrop n 8),
           (⟨(extractedContent archive n).getD "", extractTime⟩ : File))))
        dbRes.2
    else dbRes
  else (true, fs1)

/-- The context manager: run the body, then remove the temporary directory
and everything under it, whether or not the body raised. -/
def withTempDir (tmp : Path) (body : FS → Bool × FS) (fs : FS) : Bool × FS :=
  let r := body fs
  (r.1, fun p => if underTmp tmp p then none else r.2 p)

/-- The whole scoped restore block of `main()`. -/
def runRestoreScoped (oracle : IOOracle) (tmp : Path) (archive : Archive)
    (ts : String) (extractTime : Nat) (dbPath dataDir : Path) (fs : FS) :
    Bool × FS :=
  withTempDir tmp (restoreBody oracle tmp archive ts extractTime dbPath dataDir) fs

/-! ### Lemmas about the string operations -/

theorem chStarts_iff (p : List Char) : ∀ l : List Char, chStarts p l = true ↔ ∃ t, l = p ++ t := by
  induction p with
  | nil => intro l; simp [chStarts]
  | cons a ps ih =>
    intro l
    cases l with
    | nil => simp [chStarts]
    | cons c cs =>
      simp only [chStarts, Bool.and_eq_true, beq_iff_eq, ih cs, List.cons_append,
        List.cons.injEq]
      constructor
      · rintro ⟨rfl, t, rfl⟩; exact ⟨t, rfl, rfl⟩
      · rintro ⟨t, rfl, rfl⟩; exact ⟨rfl, t, rfl⟩

theorem strStartsWith_iff (s p : String) :
    strStartsWith s p = true ↔ ∃ t, s.data = p.data ++ t :=
  chStarts_iff p.data s.data

theorem chLe_cons (x y : Char) (xs ys : List Char) :
    chLe (x :: xs) (y :: ys) = true ↔
      x.toNat < y.toNat ∨ (x.toNat = y.toNat ∧ chLe xs ys = true) := by
  simp only [chLe]
  rcases Nat.lt_trichotomy x.toNat y.toNat with h | h | h
  · simp [h]
  · have h1 : ¬ x.toNat < y.toNat := by omega
    have h2 : ¬ y.toNat < x.toNat := by omega
    simp [h1, h2, h]
  · have h1 : ¬ x.toNat < y.toNat := by omega
    rw [if_neg h1, if_pos h]
    constructor
    · intro hh; cases hh
    · rintro (hh | ⟨hh, _⟩) <;> omega

theorem chLe_refl : ∀ l : List Char, chLe l l = true := by
  intro l
  induction l with
  | nil => rfl
  | cons a as ih => rw [chLe_cons]; right; exact ⟨rfl, ih⟩

theorem chLe_trans : ∀ a b c : List Char, chLe a b = true → chLe b c = true → chLe a c = true := by
  intro a
  induction a with
  | nil => intro b c _ _; rfl
  | cons x xs ih =>
    intro b c h1 h2
    cases b with
    | nil => simp [chLe] at h1
    | cons y ys =>
      cases c with
      | nil => simp [chLe] at h2
      | cons z zs =>
        rw [chLe_cons] at h1 h2 ⊢
        rcases h1 with h1 | ⟨h1, h1'⟩ <;> rcases h2 with h2 | ⟨h2, h2'⟩
        · left; omega
        · left; omega
        · left; omega
        · right; exact ⟨by omega, ih ys zs h1' h2'⟩

theorem chLe_total : ∀ a b : List Char, (chLe a b || chLe b a) = true := by
  intro a
  induction a with
  | nil => intro b; simp [chLe]
  | cons x xs ih =>
    intro b
    cases b with
    | nil => simp [chLe]
    | cons y ys =>
      rcases Bool.or_eq_true _ _ |>.mp (ih ys) with h | h
      · by_cases hxy : x.toNat < y.toNat
        · simp [chLe_cons, hxy]
        · by_cases hyx : y.toNat < x.toNat
          · simp [chLe_cons, hyx]
          · simp only [Bool.or_eq_true, chLe_cons]
            left; right; exact ⟨by omega, h⟩
      · by_cases hxy : x.toNat < y.toNat
        · simp [chLe_cons, hxy]
        · by_cases hyx : y.toNat < x.toNat
          · simp [chLe_cons, hyx]
          · simp only [Bool.or_eq_true, chLe_cons]
            right; right; exact ⟨by omega, h⟩

theorem strLe_refl (s : String) : strLe s s = true := chLe_refl s.data

theorem strLe_trans (a b c : String) (h1 : strLe a b = true) (h2 : strLe b c = true) :
    strLe a c = true := chLe_trans a.data b.data c.data h1 h2

theorem strLe_total (a b : String) : (strLe a b || strLe b a) = true :=
  chLe_total a.data b.data

theorem insertSorted_perm (x : String) (l : List String) :
    (insertSorted x l).Perm (x :: l) := by
  induction l with
  | nil => exact List.Perm.refl _
  | cons y ys ih =>
    unfold insertSorted
    by_cases h : strLe x y = true
    · rw [if_pos h]
    · rw [if_neg h]
      exact (ih.cons y).trans (List.Perm.swap x y ys)

theorem insertSorted_sorted (x : String) (l : List String)
    (hl : l.Pairwise (fun a b => strLe a b = true)) :
    (insertSorted x l).Pairwise (fun a b => strLe a b = true) := by
  induction l with
  | nil => simp [insertSorted]
  | cons y ys ih =>
    rcases List.pairwise_cons.mp hl with ⟨hy, hys⟩
    unfold insertSorted
    by_cases h : strLe x y = true
    · rw [if_pos h]
      refine List.pairwise_cons.mpr ⟨?_, hl⟩
      intro b hb
      rcases List.mem_cons.mp hb with rfl | hb'
      · exact h
      · exact strLe_trans x y b h (hy b hb')
    · rw [if_neg h]
      have hyx : strLe y x = true := by
        rcases Bool.or_eq_true _ _ |>.mp (strLe_total x y) with h' | h'
        · exact absurd h' h
        · exact h'
      refine List.pairwise_cons.mpr ⟨?_, ih hys⟩
      intro b hb
      have hb2 := (insertSorted_perm x ys).mem_iff.mp hb
      rcases List.mem_cons.mp hb2 with rfl | hb'
      · exact hyx
      · exact hy b hb'

theorem sortNames_perm (l : List String) : (sortNames l).Perm l := by
  induction l with
  | nil => exact List.Perm.refl _
  | cons x xs ih =>
    unfold sortNames
    simp only [List.foldr_cons]
    exact (insertSorted_perm x _).trans (List.Perm.cons x ih)

theorem sortNames_sorted (l : List String) :
    (sortNames l).Pairwise (fun a b => strLe a b = true) := by
  induction l with
  | nil => simp [sortNames]
  | cons x xs ih =>
    unfold sortNames
    simp only [List.foldr_cons]
    exact insertSorted_sorted x _ ih

/-! ### Lemmas about the `pathlib` fragment -/

theorem rev_takeWhile_suffix (q : Char → Bool) (l : List Char) :
    List.IsSuffix ((l.reverse.takeWhile q).reverse) l := by
  refine ⟨(l.reverse.dropWhile q).reverse, ?_⟩
  rw [← List.reverse_append, List.takeWhile_append_dropWhile, List.reverse_reverse]

theorem nameOf_suffix (p : Path) : List.IsSuffix (nameOf p) p.data :=
  rev_takeWhile_suffix _ _

theorem dropWhile_cases (q : Char → Bool) (l : List Char) :
    l.dropWhile q = [] ∨ ∃ c rest, l.dropWhile q = c :: rest ∧ q c = false := by
  induction l with
  | nil => left; rfl
  | cons a as ih =>
    by_cases h : q a
    · simpa [List.dropWhile_cons, h] using ih
    · right
      exact ⟨a, as, by simp [List.dropWhile_cons, h], by simp [h]⟩

theorem suffixOf_suffix (p : Path) : List.IsSuffix (suffixOf p) p.data := by
  unfold suffixOf
  by_cases hcond :
      ((nameOf p).reverse.takeWhile (fun c => decide (c ≠ '.'))).length ≠ 0 ∧
      ((nameOf p).reverse.takeWhile (fun c => decide (c ≠ '.'))).length + 1 < (nameOf p).length
  · rw [if_pos hcond]
    rcases dropWhile_cases (fun c => decide (c ≠ '.')) (nameOf p).reverse with hnil | ⟨c, rest, hd, hq⟩
    · exfalso
      have hsplit := List.takeWhile_append_dropWhile (fun c => decide (c ≠ '.')) (nameOf p).reverse
      rw [hnil, List.append_nil] at hsplit
      have : ((nameOf p).reverse.takeWhile (fun c => decide (c ≠ '.'))).length = (nameOf p).length := by
        rw [hsplit]; simp
      omega
    · have hc : c = '.' := by simpa using hq
      subst hc
      have hsplit := List.takeWhile_append_dropWhile (fun c => decide (c ≠ '.')) (nameOf p).reverse
      rw [hd] at hsplit
      have hrev := congrArg List.reverse hsplit
      simp only [List.reverse_append, List.reverse_reverse, List.reverse_cons] at hrev
      rw [List.append_assoc, List.singleton_append] at hrev
      exact List.IsSuffix.trans ⟨rest.reverse, hrev⟩ (nameOf_suffix p)
  · rw [if_neg hcond]
    exact ⟨p.data, by simp⟩

theorem withSuffix_suffixOf_append (p : Path) (ext : List Char) :
    withSuffix p (suffixOf p ++ ext) = ⟨p.data ++ ext⟩ := by
  obtain ⟨t, ht⟩ := suffixOf_suffix p
  unfold withSuffix
  apply String.ext
  show p.data.take (p.data.length - (suffixOf p).length) ++ (suffixOf p ++ ext)
      = p.data ++ ext
  have hlen : p.data.length - (suffixOf p).length = t.length := by
    rw [← ht]; simp
  rw [hlen, ← ht, ← List.append_assoc, List.take_left]

theorem backupExistingDb_none (fs : FS) (ts : String) (dbPath : Path)
    (h : fs dbPath = none) : backupExistingDb fs ts dbPath = (none, fs) := by
  unfold backupExistingDb
  rw [h]

theorem backupExistingDb_some (fs : FS) (ts : String) (dbPath : Path) (f : File)
    (h : fs dbPath = some f) :
    backupExistingDb fs ts dbPath =
      (some (dbPath ++ ".bak_" ++ ts), writeFile fs (dbPath ++ ".bak_" ++ ts) f) := by
  have hbp : withSuffix dbPath (suffixOf dbPath ++ (".bak_" ++ ts).data)
      = dbPath ++ ".bak_" ++ ts := by
    rw [withSuffix_suffixOf_append]
    apply String.ext
    simp [String.data_append, List.append_assoc]
  unfold backupExistingDb
  rw [h]
  simp only [hbp]

theorem backupPath_ne (dbPath : Path) (ts : String) :
    dbPath ++ ".bak_" ++ ts ≠ dbPath := by
  intro h
  have hd : (dbPath ++ ".bak_" ++ ts).data = dbPath.data := congrArg String.data h
  rw [String.data_append, String.data_append] at hd
  have hlen := congrArg List.length hd
  rw [List.length_append, List.length_append] at hlen
  have h5 : (".bak_" : String).data.length = 5 := rfl
  omega

/-! ### Lemmas about filesystem folds -/

theorem foldl_write_frame {α : Type} (t : α → Path) (v : α → File) :
    ∀ (l : List α) (fs : FS) (p : Path), (∀ x ∈ l, t x ≠ p) →
      (l.foldl (fun acc x => writeFile acc (t x) (v x)) fs) p = fs p := by
  intro l
  induction l with
  | nil => intro fs p _; rfl
  | cons a as ih =>
    intro fs p h
    simp only [List.foldl_cons]
    rw [ih _ p (fun x hx => h x (List.mem_cons_of_mem a hx))]
    have hpa : p ≠ t a := fun hh => h a (List.mem_cons_self a as) hh.symm
    simp [writeFile, hpa]

theorem foldl_write_mem {α : Type} (t : α → Path) (v : α → File) :
    ∀ (l : List α) (fs : FS) (x : α), x ∈ l →
      (∀ a ∈ l, ∀ b ∈ l, t a = t b → a = b) →
      (l.foldl (fun acc x => writeFile acc (t x) (v x)) fs) (t x) = some (v x) := by
  intro l
  induction l with
  | nil => intro fs x hx; cases hx
  | cons a as ih =>
    intro fs x hx hinj
    simp only [List.foldl_cons]
    by_cases hxas : x ∈ as
    · exact ih _ x hxas
        (fun p hp q hq he =>
          hinj p (List.mem_cons_of_mem a hp) q (List.mem_cons_of_mem a hq) he)
    · have hxa : x = a := by
        rcases List.mem_cons.mp hx with h | h
        · exact h
        · exact absurd h hxas
      subst hxa
      have hfr : ∀ y ∈ as, t y ≠ t x := by
        intro y hy he
        have hyx : y = x :=
          hinj y (List.mem_cons_of_mem x hy) x (List.mem_cons_self x as) he
        subst hyx
        exact hxas hy
      rw [foldl_write_frame t v as _ _ hfr]
      simp [writeFile]

/-! ### Lemmas about the storage copy -/

theorem mem_storageFileNames {archive : Archive} {n : String} :
    n ∈ storageFileNames archive ↔
      n ∈ archive.map (fun e => e.name) ∧ strStartsWith n "storage/" = true ∧
        strEndsWith n "/" = false := by
  unfold storageFileNames
  rw [List.mem_dedup, List.mem_filter]
  simp [Bool.and_eq_true, Bool.not_eq_true', and_assoc]

theorem storage_decomp {n : String} (h : strStartsWith n "storage/" = true) :
    n.data = "storage/".data ++ (strDrop n 8).data := by
  obtain ⟨t, ht⟩ := (strStartsWith_iff n "storage/").mp h
  have hdrop : (strDrop n 8).data = n.data.drop 8 := rfl
  have h8 : ("storage/" : String).data.length = 8 := rfl
  rw [hdrop, ht, ← h8, List.drop_left]

theorem storage_target_inj {archive : Archive} (dataDir : Path) :
    ∀ a ∈ storageFileNames archive, ∀ b ∈ storageFileNames archive,
      pjoin dataDir (strDrop a 8) = pjoin dataDir (strDrop b 8) → a = b := by
  intro a ha b hb he
  have ha' := (mem_storageFileNames.mp ha).2.1
  have hb' := (mem_storageFileNames.mp hb).2.1
  have hdd : (strDrop a 8).data = (strDrop b 8).data := by
    have hd := congrArg String.data he
    unfold pjoin at hd
    simp only [String.data_append] at hd
    exact List.append_cancel_left hd
  apply String.ext
  rw [storage_decomp ha', storage_decomp hb', hdd]

theorem copyStorage_frame (archive : Archive) (dataDir : Path) (et : Nat)
    (fs : FS) (p : Path)
    (h : ∀ n ∈ storageFileNames archive, pjoin dataDir (strDrop n 8) ≠ p) :
    copyStorage archive dataDir et fs p = fs p := by
  unfold copyStorage
  exact foldl_write_frame (fun n => pjoin dataDir (strDrop n 8))
    (fun n => ⟨(extractedContent archive n).getD "", et⟩) _ fs p h

theorem copyStorage_mem (archive : Archive) (dataDir : Path) (et : Nat)
    (fs : FS) (n : String) (h : n ∈ storageFileNames archive) :
    copyStorage archive dataDir et fs (pjoin dataDir (strDrop n 8)) =
      some ⟨(extractedContent archive n).getD "", et⟩ := by
  unfold copyStorage
  exact foldl_write_mem (fun n => pjoin dataDir (strDrop n 8))
    (fun n => ⟨(extractedContent archive n).getD "", et⟩) _ fs n h
    (storage_target_inj dataDir)

/-! ### Lemmas about the database candidate list -/

theorem mem_dbCandidates {names : List String} {n : String} :
    n ∈ dbCandidates names ↔
      n ∈ names ∧ strStartsWith n "database/" = true ∧
        strContains (strDrop n 9) '/' = false ∧ strEndsWith n ".db" = true := by
  unfold dbCandidates
  rw [(sortNames_perm _).mem_iff, List.mem_dedup, List.mem_filter]
  simp [Bool.and_eq_true, Bool.not_eq_true', and_assoc]

theorem dbCandidates_sorted (names : List String) :
    (dbCandidates names).Pairwise (fun a b => strLe a b = true) := by
  unfold dbCandidates
  exact sortNames_sorted _

theorem dbCandidates_head_min {names : List String} {c : String} {t : List String}
    (h : dbCandidates names = c :: t) :
    ∀ x ∈ dbCandidates names, strLe c x = true := by
  intro x hx
  rw [h] at hx
  rcases List.mem_cons.mp hx with rfl | hx'
  · exact strLe_refl x
  · have hp := dbCandidates_sorted names
    rw [h] at hp
    exact List.rel_of_pairwise_cons hp hx'

theorem dbCandidates_nil {names : List String}
    (h : ∀ n ∈ names, strStartsWith n "database/" = false) :
    dbCandidates names = [] := by
  unfold dbCandidates
  have hf : names.filter (fun n =>
      strStartsWith n "database/" && !(strContains (strDrop n 9) '/')
        && strEndsWith n ".db") = [] := by
    rw [List.filter_eq_nil_iff]
    intro n hn
    simp [h n hn]
  rw [hf]
  rfl

theorem storageSubtreeExists_false {names : List String}
    (h : ∀ n ∈ names, n ≠ "storage" ∧ strStartsWith n "storage/" = false) :
    storageSubtreeExists names = false := by
  unfold storageSubtreeExists
  rw [List.any_eq_false]
  intro n hn
  simp [(h n hn).1, (h n hn).2]

/-! ### Characterisations of the restore steps -/

theorem restoreStep_eq (archive : Archive) (ts : String) (et : Nat)
    (dataDir dbPath : Path) (fs : FS) :
    restoreStep archive ts et dataDir dbPath fs =
      ((dbRestoreStep archive ts et dbPath fs).1 ++
        (storageRestoreStep archive et dataDir
          (dbRestoreStep archive ts et dbPath fs).2).1,
       (storageRestoreStep archive et dataDir
         (dbRestoreStep archive ts et dbPath fs).2).2) := rfl

theorem dbRestoreStep_skip (archive : Archive) (ts : String) (et : Nat)
    (dbPath : Path) (fs : FS)
    (h : dbCandidates (archive.map (fun e => e.name)) = []) :
    dbRestoreStep archive ts et dbPath fs = ([Msg.noDb], fs) := by
  simp [dbRestoreStep, h]

theorem dbRestoreStep_write_none (archive : Archive) (ts : String) (et : Nat)
    (dbPath : Path) (fs : FS) (c : String) (t : List String)
    (hc : dbCandidates (archive.map (fun e => e.name)) = c :: t)
    (hfs : fs dbPath = none) :
    dbRestoreStep archive ts et dbPath fs =
      ([Msg.restoredDb dbPath],
       writeFile fs dbPath ⟨(extractedContent archive c).getD "", et⟩) := by
  simp [dbRestoreStep, hc, backupExistingDb_none fs ts dbPath hfs]

theorem dbRestoreStep_write_some (archive : Archive) (ts : String) (et : Nat)
    (dbPath : Path) (fs : FS) (c : String) (t : List String) (f : File)
    (hc : dbCandidates (archive.map (fun e => e.name)) = c :: t)
    (hfs : fs dbPath = some f) :
    dbRestoreStep archive ts et dbPath fs =
      ([Msg.backedUp (dbPath ++ ".bak_" ++ ts), Msg.restoredDb dbPath],
       writeFile (writeFile fs (dbPath ++ ".bak_" ++ ts) f) dbPath
         ⟨(extractedContent archive c).getD "", et⟩) := by
  simp [dbRestoreStep, hc, backupExistingDb_some fs ts dbPath f hfs]

theorem storageRestoreStep_skip (archive : Archive) (et : Nat)
    (dataDir : Path) (fs : FS)
    (h : storageSubtreeExists (archive.map (fun e => e.name)) = false) :
    storageRestoreStep archive et dataDir fs = ([Msg.noStorage], fs) := by
  simp [storageRestoreStep, h]

theorem storageRestoreStep_copy (archive : Archive) (et : Nat)
    (dataDir : Path) (fs : FS)
    (h : storageSubtreeExists (archive.map (fun e => e.name)) = true) :
    storageRestoreStep archive et dataDir fs =
      ([Msg.restoredStorage (storageFileNames archive).length dataDir],
       copyStorage archive dataDir et fs) := by
  simp [storageRestoreStep, h]

/-! ### Characterisations of `runMain` -/

theorem runMain_missing (env : Env) (ts : String) (et : Nat) (args : Args)
    (fs : FS) :
    runMain env ts et args none fs =
      ⟨2, [], [Msg.errArchiveNotFound args.backup], fs⟩ := rfl

theorem runMain_detect_fail (env : Env) (ts : String) (et : Nat) (args : Args)
    (archive : Archive) (fs : FS)
    (h : resolveApp args.app (archive.map (fun e => e.name)) = none) :
    runMain env ts et args (some archive) fs =
      ⟨2, [], [Msg.errCannotDetect], fs⟩ := by
  simp [runMain, h]

theorem runMain_dry (env : Env) (ts : String) (et : Nat) (args : Args)
    (archive : Archive) (fs : FS) (app : App)
    (h : resolveApp args.app (archive.map (fun e => e.name)) = some app)
    (hdry : args.dryRun = true) :
    runMain env ts et args (some archive) fs =
      ⟨0,
       [Msg.appLine app, Msg.dataDirLine (appPaths env args.dataDir app).1,
        Msg.dbPathLine (appPaths env args.dataDir app).2,
        Msg.storageCountLine
          ((archive.map (fun e => e.name)).filter
            (fun n => strStartsWith n "storage/")).length,
        Msg.dbFilesLine
          ((archive.map (fun e => e.name)).filter
            (fun n => strStartsWith n "database/"))],
       [], fs⟩ := by
  simp [runMain, h, hdry]

theorem runMain_restore (env : Env) (ts : String) (et : Nat) (args : Args)
    (archive : Archive) (fs : FS) (app : App)
    (h : resolveApp args.app (archive.map (fun e => e.name)) = some app)
    (hdry : args.dryRun = false) :
    runMain env ts et args (some archive) fs =
      ⟨0,
       (restoreStep archive ts et (appPaths env args.dataDir app).1
          (appPaths env args.dataDir app).2 fs).1,
       [],
       (restoreStep archive ts et (appPaths env args.dataDir app).1
          (appPaths env args.dataDir app).2 fs).2⟩ := by
  simp [runMain, h, hdry]

/-! ### The claims -/

/-- C3: app detection over the archive's entry-name set: the CRM marker
wins whenever present (in particular when both markers are present), else
the Sales marker, else detection fails; an explicitly supplied app is used
unconditionally without consulting the archive. -/
theorem claim3_app_detection :
    (∀ names : List String,
      (CRM_EXPORT_MARKER ∈ names → detectApp names = some App.crm) ∧
      (CRM_EXPORT_MARKER ∉ names → SALES_EXPORT_MARKER ∈ names →
        detectApp names = some App.sales) ∧
      (CRM_EXPORT_MARKER ∉ names → SALES_EXPORT_MARKER ∉ names →
        detectApp names = none)) ∧
    (∀ (a : App) (names : List String), resolveApp (some a) names = some a) := by
  constructor
  · intro names
    refine ⟨?_, ?_, ?_⟩
    · intro h; simp [detectApp, h]
    · intro h1 h2; simp [detectApp, h1, h2]
    · intro h1 h2; simp [detectApp, h1, h2]
  · intro a names; rfl

/-- C3 witness: detection on archives containing both markers, only the
Sales marker, and neither; explicit `--app sales` overriding a CRM
archive. -/
theorem claim3_app_detection_witness :
    detectApp ["exports/ps_crm.sql", "exports/ps_sales.sql"] = some App.crm ∧
    detectApp ["exports/ps_sales.sql"] = some App.sales ∧
    detectApp ["storage/x"] = none ∧
    resolveApp (some App.sales) ["exports/ps_crm.sql"] = some App.sales := by
  refine ⟨?_, ?_, ?_, ?_⟩
  · exact (claim3_app_detection.1 _).1 (by decide)
  · exact (claim3_app_detection.1 _).2.1 (by decide) (by decide)
  · exact (claim3_app_detection.1 _).2.2 (by decide) (by decide)
  · exact claim3_app_detection.2 App.sales _

/-- C4: a dry run on a valid archive exits 0, reports the detected app,
data directory, database path, storage-entry count and the literal list of
database-prefixed entry names, and leaves every file of the filesystem
untouched. -/
theorem claim4_dry_run (env : Env) (ts : String) (et : Nat) (args : Args)
    (archive : Archive) (fs : FS) (app : App)
    (hres : resolveApp args.app (archive.map (fun e => e.name)) = some app)
    (hdry : args.dryRun = true) :
    (runMain env ts et args (some archive) fs).exitCode = 0 ∧
    (∀ p, (runMain env ts et args (some archive) fs).fs p = fs p) ∧
    (runMain env ts et args (some archive) fs).stdout =
      [Msg.appLine app, Msg.dataDirLine (appPaths env args.dataDir app).1,
       Msg.dbPathLine (appPaths env args.dataDir app).2,
       Msg.storageCountLine
         ((archive.map (fun e => e.name)).filter
           (fun n => strStartsWith n "storage/")).length,
       Msg.dbFilesLine
         ((archive.map (fun e => e.name)).filter
           (fun n => strStartsWith n "database/"))] := by
  rw [runMain_dry env ts et args archive fs app hres hdry]
  exact ⟨rfl, fun p => rfl, rfl⟩

/-- C4 witness: a dry run over a CRM archive with one storage file and two
database files touches nothing and prints the report. -/
theorem claim4_dry_run_witness :
    (runMain envA "TS" 7 (argsAuto true) (some arcPlain) fsEmpty).exitCode = 0 ∧
    (runMain envA "TS" 7 (argsAuto true) (some arcPlain) fsEmpty).fs "/data/ps_crm.db" = none ∧
    (runMain envA "TS" 7 (argsAuto true) (some arcPlain) fsEmpty).stdout =
      [Msg.appLine App.crm, Msg.dataDirLine "/data", Msg.dbPathLine "/data/ps_crm.db",
       Msg.storageCountLine 1,
       Msg.dbFilesLine ["database/b.db", "database/a.db"]] := by
  obtain ⟨h1, h2, h3⟩ :=
    claim4_dry_run envA "TS" 7 (argsAuto true) arcPlain fsEmpty App.crm rfl rfl
  exact ⟨h1, (h2 "/data/ps_crm.db").trans rfl, h3⟩

/-- C8 counterexample: the claim says the data directory is "the override
if given"; the script tests Python truthiness, so the given-but-empty
override `--data-dir ""` is ignored and the environment value wins. -/
theorem claim8_counterexample :
    (crmPaths ⟨some "/xdg", none, none, "/default", "/sales"⟩ (some "")).1 = "/xdg" ∧
    (crmPaths ⟨some "/xdg", none, none, "/default", "/sales"⟩ (some "")).1 ≠ "" := by
  refine ⟨rfl, by decide⟩

/-- C8 (amended): path resolution is total (never raises) and follows the
fallback chains, with the override honoured exactly when given and
non-empty: CRM data dir = non-empty override, else (override absent or
empty) `APP_STORAGE_DIR`, else the platform default; CRM db path =
`DB_PATH`, else `<data_dir>/ps_crm.db`; Sales data dir = non-empty
override, else (override absent or empty) the configured data dir; Sales
db path = `PS_SALES_DB_URL` with a leading `sqlite:///` stripped when that
variable is non-empty, else `<data_dir>/ps_sales.db`. -/
theorem claim8_path_resolution :
    (∀ (env : Env) (d : String), d ≠ "" →
      crmPaths env (some d) = (d, getenv env.dbPathVar (pjoin d "ps_crm.db"))) ∧
    (∀ (env : Env) (o : Option String), o = none ∨ o = some "" →
      (crmPaths env o).1 = getenv env.appStorageDir env.storageDirDefault ∧
      (crmPaths env o).2 =
        getenv env.dbPathVar (pjoin (crmPaths env o).1 "ps_crm.db")) ∧
    (∀ (env : Env) (d : String), d ≠ "" → (salesPaths env (some d)).1 = d) ∧
    (∀ (env : Env) (o : Option String), o = none ∨ o = some "" →
      (salesPaths env o).1 = env.salesConfigDataDir) ∧
    (∀ (env : Env) (o : Option String) (u : String),
      env.psSalesDbUrl = some u → u ≠ "" →
      (salesPaths env o).2 =
        (if strStartsWith u "sqlite:///" then strDrop u ("sqlite:///".length) else u)) ∧
    (∀ (env : Env) (o : Option String), getenv env.psSalesDbUrl "" = "" →
      (salesPaths env o).2 = pjoin (salesPaths env o).1 "ps_sales.db") := by
  refine ⟨?_, ?_, ?_, ?_, ?_, ?_⟩
  · intro env d hd
    simp [crmPaths, optTruthy, bne_iff_ne, hd]
  · intro env o ho
    rcases ho with rfl | rfl
    · exact ⟨rfl, rfl⟩
    · exact ⟨rfl, rfl⟩
  · intro env d hd
    simp [salesPaths, optTruthy, bne_iff_ne, hd]
  · intro env o ho
    rcases ho with rfl | rfl
    · rfl
    · rfl
  · intro env o u hu hne
    simp [salesPaths, getenv, hu, bne_iff_ne, hne]
  · intro env o hu
    simp [salesPaths, getenv] at hu
    simp [salesPaths, getenv, hu]

/-- C8 witness: concrete resolutions for both apps — CRM with a non-empty
override and `DB_PATH` unset; the given-but-empty override falling back
for CRM (to `APP_STORAGE_DIR`, then to the platform default) and for
Sales (to the configured data dir); Sales with `PS_SALES_DB_URL` set to a
`sqlite:///` URL, and unset. -/
theorem claim8_path_resolution_witness :
    crmPaths envA (some "/over") = ("/over", "/over/ps_crm.db") ∧
    (crmPaths ⟨some "/xdg", none, none, "/default", "/sales"⟩ (some "")).1 = "/xdg" ∧
    (crmPaths envA (some "")).1 = "/data" ∧
    (crmPaths envA (some "")).2 = "/data/ps_crm.db" ∧
    (salesPaths envA (some "")).1 = "/sales" ∧
    (salesPaths ⟨none, none, some "sqlite:////srv/s.db", "/data", "/sales"⟩ none).2
      = "/srv/s.db" ∧
    (salesPaths envA none).2 = "/sales/ps_sales.db" := by
  refine ⟨?_, ?_, ?_, ?_, ?_, ?_, ?_⟩
  · have h := claim8_path_resolution.1 envA "/over" (by decide)
    exact h.trans (by rfl)
  · have h := (claim8_path_resolution.2.1
      ⟨some "/xdg", none, none, "/default", "/sales"⟩ (some "") (Or.inr rfl)).1
    exact h.trans (by rfl)
  · have h := (claim8_path_resolution.2.1 envA (some "") (Or.inr rfl)).1
    exact h.trans (by rfl)
  · have h := (claim8_path_resolution.2.1 envA (some "") (Or.inr rfl)).2
    exact h.trans (by rfl)
  · exact claim8_path_resolution.2.2.2.1 envA (some "") (Or.inr rfl)
  · have h := claim8_path_resolution.2.2.2.2.1
      ⟨none, none, some "sqlite:////srv/s.db", "/data", "/sales"⟩ none
      "sqlite:////srv/s.db" rfl (by decide)
    exact h.trans (by decide)
  · have h := claim8_path_resolution.2.2.2.2.2 envA none rfl
    exact h.trans (by rfl)

/-- C10: only regular files directly inside the extracted `database/`
directory whose names end in `.db` are restore candidates: an entry in a
nested subdirectory of the database subtree, or one with another
extension, is never a candidate and in particular never the selected
(first) candidate copied to the destination database path. -/
theorem claim10_candidate_scope (names : List String) (n : String)
    (hpre : strStartsWith n "database/" = true)
    (hbad : strContains (strDrop n 9) '/' = true ∨ strEndsWith n ".db" = false) :
    n ∉ dbCandidates names ∧ (dbCandidates names).head? ≠ some n := by
  have hnot : n ∉ dbCandidates names := by
    intro h
    obtain ⟨_, _, hsl, hdb⟩ := mem_dbCandidates.mp h
    rcases hbad with hb | hb
    · rw [hsl] at hb; cases hb
    · rw [hdb] at hb; cases hb
  refine ⟨hnot, ?_⟩
  intro hh
  rcases hcs : dbCandidates names with _ | ⟨c, t⟩
  · rw [hcs] at hh; cases hh
  · rw [hcs] at hh
    have hc : c = n := by
      have := Option.some.inj hh
      exact this
    subst hc
    exact hnot (by rw [hcs]; exact List.mem_cons_self c t)

/-- C10 witness: a nested `database/sub/x.db` and a direct `database/r.txt`
are excluded from the candidate list of an archive containing them and a
genuine candidate. -/
theorem claim10_candidate_scope_witness :
    strStartsWith "database/sub/x.db" "database/" = true ∧
    strContains (strDrop "database/sub/x.db" 9) '/' = true ∧
    "database/sub/x.db" ∉ dbCandidates ["database/sub/x.db", "database/a.db", "database/r.txt"] ∧
    (dbCandidates ["database/sub/x.db", "database/a.db", "database/r.txt"]).head?
      ≠ some "database/sub/x.db" ∧
    "database/r.txt" ∉ dbCandidates ["database/sub/x.db", "database/a.db", "database/r.txt"] := by
  refine ⟨by decide, by decide, ?_, ?_, ?_⟩
  · exact (claim10_candidate_scope _ "database/sub/x.db" (by decide) (Or.inl (by decide))).1
  · exact (claim10_candidate_scope _ "database/sub/x.db" (by decide) (Or.inl (by decide))).2
  · exact (claim10_candidate_scope _ "database/r.txt" (by decide) (Or.inr (by decide))).1

/-- C6: the program exits with code 2 exactly when the archive path does
not exist or detection fails with no explicit app given; in every such run
an error message is on the error stream and no file of the filesystem has
been touched. -/
theorem claim6_exit_code_2 (env : Env) (ts : String) (et : Nat) (args : Args)
    (archiveFile : Option Archive) (fs : FS) :
    ((runMain env ts et args archiveFile fs).exitCode = 2 ↔
      (archiveFile = none ∨
        ∃ archive, archiveFile = some archive ∧ args.app = none ∧
          detectApp (archive.map (fun e => e.name)) = none)) ∧
    ((runMain env ts et args archiveFile fs).exitCode = 2 →
      (runMain env ts et args archiveFile fs).stderr ≠ [] ∧
      ∀ p, (runMain env ts et args archiveFile fs).fs p = fs p) := by
  rcases archiveFile with _ | archive
  · rw [runMain_missing]
    refine ⟨⟨fun _ => Or.inl rfl, fun _ => rfl⟩, fun _ => ⟨by simp, fun p => rfl⟩⟩
  · rcases hres : resolveApp args.app (archive.map (fun e => e.name)) with _ | app
    · rw [runMain_detect_fail env ts et args archive fs hres]
      have hra : args.app = none ∧ detectApp (archive.map (fun e => e.name)) = none := by
        rcases ha : args.app with _ | a
        · rw [ha] at hres
          exact ⟨rfl, hres⟩
        · rw [ha] at hres
          cases hres
      refine ⟨⟨fun _ => Or.inr ⟨archive, rfl, hra⟩, fun _ => rfl⟩,
        fun _ => ⟨by simp, fun p => rfl⟩⟩
    · have hnot2 : ¬ (some archive = (none : Option Archive) ∨
          ∃ archive', some archive = some archive' ∧ args.app = none ∧
            detectApp (archive'.map (fun e => e.name)) = none) := by
        rintro (h | ⟨archive', he, ha, hd⟩)
        · cases h
        · have harc : archive' = archive := (Option.some.inj he).symm
          subst harc
          rw [ha] at hres
          simp only [resolveApp] at hres
          rw [hd] at hres
          cases hres
      rcases hdry : args.dryRun with _ | _
      · rw [runMain_restore env ts et args archive fs app hres hdry]
        exact ⟨⟨fun h => by simp at h, fun h => absurd h hnot2⟩, fun h => by simp at h⟩
      · rw [runMain_dry env ts et args archive fs app hres hdry]
        exact ⟨⟨fun h => by simp at h, fun h => absurd h hnot2⟩, fun h => by simp at h⟩

/-- C6 witness: a missing archive path and an undetectable archive both
exit 2 with an error message and an untouched filesystem; a detectable
archive does not exit 2. -/
theorem claim6_exit_code_2_witness :
    (runMain envA "TS" 7 (argsAuto false) none fsOrig).exitCode = 2 ∧
    (runMain envA "TS" 7 (argsAuto false) none fsOrig).stderr ≠ [] ∧
    (runMain envA "TS" 7 (argsAuto false) none fsOrig).fs "/data/ps_crm.db"
      = some ⟨"ORIG", 3⟩ ∧
    (runMain envA "TS" 7 (argsAuto false) (some [⟨"storage/x", "y"⟩]) fsOrig).exitCode = 2 ∧
    ¬ (runMain envA "TS" 7 (argsAuto true) (some arcPlain) fsOrig).exitCode = 2 := by
  have h1 := (claim6_exit_code_2 envA "TS" 7 (argsAuto false) none fsOrig).1.mpr
    (Or.inl rfl)
  have h2 := (claim6_exit_code_2 envA "TS" 7 (argsAuto false) none fsOrig).2 h1
  have h3 := (claim6_exit_code_2 envA "TS" 7 (argsAuto false)
    (some [⟨"storage/x", "y"⟩]) fsOrig).1.mpr
    (Or.inr ⟨[⟨"storage/x", "y"⟩], rfl, rfl, by decide⟩)
  have h4 := (claim6_exit_code_2 envA "TS" 7 (argsAuto true) (some arcPlain) fsOrig).1
  refine ⟨h1, h2.1, (h2.2 "/data/ps_crm.db").trans (by decide), h3, ?_⟩
  intro h
  rcases h4.mp h with h' | ⟨archive', he, _, hd⟩
  · cases h'
  · have : archive' = arcPlain := (Option.some.inj he).symm
    subst this
    have : detectApp (arcPlain.map (fun e => e.name)) = some App.crm := by decide
    rw [this] at hd
    cases hd

/-- C7 counterexample: an archive with no `database/`- or
`storage/`-prefixed entry but a degenerate regular-file entry named exactly
`storage` makes the extracted storage path exist as a file, so the script
reports `Restored 0 storage files` instead of the storage skip. -/
theorem claim7_counterexample :
    strStartsWith "exports/ps_crm.sql" "database/" = false ∧
    strStartsWith "exports/ps_crm.sql" "storage/" = false ∧
    strStartsWith "storage" "database/" = false ∧
    strStartsWith "storage" "storage/" = false ∧
    (runMain envA "TS" 7 (argsAuto false) (some arcStorageFile) fsEmpty).exitCode = 0 ∧
    (runMain envA "TS" 7 (argsAuto false) (some arcStorageFile) fsEmpty).stdout
      = [Msg.noDb, Msg.restoredStorage 0 "/data"] ∧
    Msg.noStorage ∉ (runMain envA "TS" 7 (argsAuto false) (some arcStorageFile) fsEmpty).stdout := by
  refine ⟨by decide, by decide, by decide, by decide, rfl, rfl, by decide⟩

/-- C7 (amended): for an archive containing neither `database/`- nor
`storage/`-prefixed entries and no entry named exactly `storage`, a
non-dry-run restore exits 0, touches no file, and reports both the
database skip and the storage skip. -/
theorem claim7_empty_archive (env : Env) (ts : String) (et : Nat) (args : Args)
    (archive : Archive) (fs : FS) (app : App)
    (hdry : args.dryRun = false)
    (hres : resolveApp args.app (archive.map (fun e => e.name)) = some app)
    (hnone : ∀ n ∈ archive.map (fun e => e.name),
      strStartsWith n "database/" = false ∧ strStartsWith n "storage/" = false ∧
        n ≠ "storage") :
    (runMain env ts et args (some archive) fs).exitCode = 0 ∧
    (∀ p, (runMain env ts et args (some archive) fs).fs p = fs p) ∧
    (runMain env ts et args (some archive) fs).stdout = [Msg.noDb, Msg.noStorage] := by
  rw [runMain_restore env ts et args archive fs app hres hdry]
  have hc : dbCandidates (archive.map (fun e => e.name)) = [] :=
    dbCandidates_nil (fun n hn => (hnone n hn).1)
  have hs : storageSubtreeExists (archive.map (fun e => e.name)) = false :=
    storageSubtreeExists_false (fun n hn => ⟨(hnone n hn).2.2, (hnone n hn).2.1⟩)
  rw [restoreStep_eq]
  simp only [dbRestoreStep_skip archive ts et (appPaths env args.dataDir app).2 fs hc]
  simp only [storageRestoreStep_skip archive et (appPaths env args.dataDir app).1 fs hs]
  simp

/-- C7 witness: a marker-only CRM archive restores as a double no-op. -/
theorem claim7_empty_archive_witness :
    (runMain envA "TS" 7 (argsAuto false) (some arcMarkerOnly) fsOrig).exitCode = 0 ∧
    (runMain envA "TS" 7 (argsAuto false) (some arcMarkerOnly) fsOrig).fs "/data/ps_crm.db"
      = some ⟨"ORIG", 3⟩ ∧
    (runMain envA "TS" 7 (argsAuto false) (some arcMarkerOnly) fsOrig).stdout
      = [Msg.noDb, Msg.noStorage] := by
  obtain ⟨h1, h2, h3⟩ := claim7_empty_archive envA "TS" 7 (argsAuto false)
    arcMarkerOnly fsOrig App.crm rfl rfl (by decide)
  exact ⟨h1, (h2 "/data/ps_crm.db").trans (by decide), h3⟩

/-- C1 counterexample: the claim promises that after restore the
destination database file holds the bytes of the lexicographically-first
candidate; an archive whose storage tree also contains `ps_crm.db` lands
that file on the resolved database path after the database step, so the
destination ends with the storage bytes instead. -/
theorem claim1_counterexample :
    dbCandidates (arcOverwrite.map (fun e => e.name)) = ["database/z.db"] ∧
    extractedContent arcOverwrite "database/z.db" = some "NEW" ∧
    (runMain envA "TS" 7 argsCrm (some arcOverwrite) fsEmpty).exitCode = 0 ∧
    (runMain envA "TS" 7 argsCrm (some arcOverwrite) fsEmpty).fs "/data/ps_crm.db"
      = some ⟨"OLD", 7⟩ ∧
    (runMain envA "TS" 7 argsCrm (some arcOverwrite) fsEmpty).fs "/data/ps_crm.db"
      ≠ some ⟨"NEW", 7⟩ := by
  refine ⟨rfl, rfl, rfl, rfl, by decide⟩

/-- C1 (amended): in a non-dry-run restore in which no storage-tree file
restores onto the resolved database path, if candidates exist then exactly
the first sorted candidate's bytes (with the extracted file's metadata)
end up at the database path, the restore is reported, and the chosen
candidate is `strLe`-least among all candidates; with no candidate the
database path is untouched and the skip is reported; either way the exit
code is 0. -/
theorem claim1_db_restore (env : Env) (ts : String) (et : Nat) (args : Args)
    (archive : Archive) (fs : FS) (app : App)
    (hdry : args.dryRun = false)
    (hres : resolveApp args.app (archive.map (fun e => e.name)) = some app)
    (hnc : ∀ n ∈ storageFileNames archive,
      pjoin (appPaths env args.dataDir app).1 (strDrop n 8)
        ≠ (appPaths env args.dataDir app).2) :
    (runMain env ts et args (some archive) fs).exitCode = 0 ∧
    (match dbCandidates (archive.map (fun e => e.name)) with
     | [] =>
        Msg.noDb ∈ (runMain env ts et args (some archive) fs).stdout ∧
        (runMain env ts et args (some archive) fs).fs
            (appPaths env args.dataDir app).2
          = fs (appPaths env args.dataDir app).2
     | c :: _ =>
        (runMain env ts et args (some archive) fs).fs
            (appPaths env args.dataDir app).2
          = some ⟨(extractedContent archive c).getD "", et⟩ ∧
        Msg.restoredDb (appPaths env args.dataDir app).2
          ∈ (runMain env ts et args (some archive) fs).stdout ∧
        ∀ x ∈ dbCandidates (archive.map (fun e => e.name)), strLe c x = true) := by
  rw [runMain_restore env ts et args archive fs app hres hdry, restoreStep_eq]
  rcases hcands : dbCandidates (archive.map (fun e => e.name)) with _ | ⟨c, t⟩
  · simp only [hcands, dbRestoreStep_skip archive ts et
      (appPaths env args.dataDir app).2 fs hcands]
    by_cases hst : storageSubtreeExists (archive.map (fun e => e.name)) = true
    · simp only [storageRestoreStep_copy archive et
        (appPaths env args.dataDir app).1 fs hst]
      refine ⟨trivial, by simp, ?_⟩
      exact copyStorage_frame archive _ et fs _ hnc
    · have hst' : storageSubtreeExists (archive.map (fun e => e.name)) = false := by
        simpa using hst
      simp only [storageRestoreStep_skip archive et
        (appPaths env args.dataDir app).1 fs hst']
      exact ⟨trivial, by simp, trivial⟩
  · simp only [hcands]
    rcases hfs : fs (appPaths env args.dataDir app).2 with _ | f
    · simp only [dbRestoreStep_write_none archive ts et
        (appPaths env args.dataDir app).2 fs c t hcands hfs]
      by_cases hst : storageSubtreeExists (archive.map (fun e => e.name)) = true
      · simp only [storageRestoreStep_copy archive et
          (appPaths env args.dataDir app).1 _ hst]
        refine ⟨trivial, ?_, by simp,
          fun x hx => dbCandidates_head_min hcands x (by rw [hcands]; exact hx)⟩
        rw [copyStorage_frame archive _ et _ _ hnc]
        simp [writeFile]
      · have hst' : storageSubtreeExists (archive.map (fun e => e.name)) = false := by
          simpa using hst
        simp only [storageRestoreStep_skip archive et
          (appPaths env args.dataDir app).1 _ hst']
        refine ⟨trivial, ?_, by simp,
          fun x hx => dbCandidates_head_min hcands x (by rw [hcands]; exact hx)⟩
        simp [writeFile]
    · simp only [dbRestoreStep_write_some archive ts et
        (appPaths env args.dataDir app).2 fs c t f hcands hfs]
      by_cases hst : storageSubtreeExists (archive.map (fun e => e.name)) = true
      · simp only [storageRestoreStep_copy archive et
          (appPaths env args.dataDir app).1 _ hst]
        refine ⟨trivial, ?_, by simp,
          fun x hx => dbCandidates_head_min hcands x (by rw [hcands]; exact hx)⟩
        rw [copyStorage_frame archive _ et _ _ hnc]
        simp [writeFile]
      · have hst' : storageSubtreeExists (archive.map (fun e => e.name)) = false := by
          simpa using hst
        simp only [storageRestoreStep_skip archive et
          (appPaths env args.dataDir app).1 _ hst']
        refine ⟨trivial, ?_, by simp,
          fun x hx => dbCandidates_head_min hcands x (by rw [hcands]; exact hx)⟩
        simp [writeFile]

/-- C1 witness: restoring a CRM archive with candidates
`database/a.db`, `database/b.db` and a non-colliding storage tree writes
`a.db`'s bytes to the database path. -/
theorem claim1_db_restore_witness :
    ((argsAuto false).dryRun = false) ∧
    resolveApp (argsAuto false).app (arcPlain.map (fun e => e.name)) = some App.crm ∧
    ((runMain envA "TS" 7 (argsAuto false) (some arcPlain) fsEmpty).exitCode = 0 ∧
     (match dbCandidates (arcPlain.map (fun e => e.name)) with
      | [] =>
         Msg.noDb ∈ (runMain envA "TS" 7 (argsAuto false) (some arcPlain) fsEmpty).stdout ∧
         (runMain envA "TS" 7 (argsAuto false) (some arcPlain) fsEmpty).fs
             (appPaths envA (argsAuto false).dataDir App.crm).2
           = fsEmpty (appPaths envA (argsAuto false).dataDir App.crm).2
      | c :: _ =>
         (runMain envA "TS" 7 (argsAuto false) (some arcPlain) fsEmpty).fs
             (appPaths envA (argsAuto false).dataDir App.crm).2
           = some ⟨(extractedContent arcPlain c).getD "", 7⟩ ∧
         Msg.restoredDb (appPaths envA (argsAuto false).dataDir App.crm).2
           ∈ (runMain envA "TS" 7 (argsAuto false) (some arcPlain) fsEmpty).stdout ∧
         ∀ x ∈ dbCandidates (arcPlain.map (fun e => e.name)), strLe c x = true)) := by
  exact ⟨rfl, rfl,
    claim1_db_restore envA "TS" 7 (argsAuto false) arcPlain fsEmpty App.crm
      rfl rfl (by decide)⟩

/-- C2 counterexample: the claim promises that after a restore overwriting
an existing database, the timestamped backup file contains the original
bytes; an archive whose storage tree carries a file named like the backup
(`storage/ps_crm.db.bak_20240101_120000`, restored after the backup is
taken) leaves the backup path holding the storage bytes instead. -/
theorem claim2_counterexample :
    fsOrig "/data/ps_crm.db" = some ⟨"ORIG", 3⟩ ∧
    dbCandidates (arcBakClash.map (fun e => e.name)) = ["database/z.db"] ∧
    (runMain envA "20240101_120000" 7 argsCrm (some arcBakClash) fsOrig).stdout.head?
      = some (Msg.backedUp "/data/ps_crm.db.bak_20240101_120000") ∧
    (runMain envA "20240101_120000" 7 argsCrm (some arcBakClash) fsOrig).fs
        "/data/ps_crm.db.bak_20240101_120000"
      = some ⟨"EVIL", 7⟩ ∧
    (runMain envA "20240101_120000" 7 argsCrm (some arcBakClash) fsOrig).fs
        "/data/ps_crm.db.bak_20240101_120000"
      ≠ some ⟨"ORIG", 3⟩ := by
  refine ⟨rfl, rfl, rfl, rfl, by decide⟩

/-- C2 (amended): with no file at the database path the backup step does
nothing and returns no path; with a file present it is copied, bytes and
metadata, to `<db-path>.bak_<timestamp>` (the `with_suffix` construction
appends `.bak_<ts>` to the original suffix) and that path is returned; and
after a restore that overwrites an existing database, provided no
storage-tree file restores onto the backup path, the backup file holds the
original bytes and is reported.  (The backup directory's `mkdir` is a
directory-only effect, not modelled.) -/
theorem claim2_backup_before_overwrite :
    (∀ (fs : FS) (ts : String) (dbPath : Path),
      fs dbPath = none → backupExistingDb fs ts dbPath = (none, fs)) ∧
    (∀ (fs : FS) (ts : String) (dbPath : Path) (f : File),
      fs dbPath = some f →
      backupExistingDb fs ts dbPath =
        (some (dbPath ++ ".bak_" ++ ts),
         writeFile fs (dbPath ++ ".bak_" ++ ts) f) ∧
      writeFile fs (dbPath ++ ".bak_" ++ ts) f (dbPath ++ ".bak_" ++ ts) = some f) ∧
    (∀ (env : Env) (ts : String) (et : Nat) (args : Args) (archive : Archive)
        (fs : FS) (app : App) (f : File),
      args.dryRun = false →
      resolveApp args.app (archive.map (fun e => e.name)) = some app →
      dbCandidates (archive.map (fun e => e.name)) ≠ [] →
      fs (appPaths env args.dataDir app).2 = some f →
      (∀ n ∈ storageFileNames archive,
        pjoin (appPaths env args.dataDir app).1 (strDrop n 8)
          ≠ (appPaths env args.dataDir app).2 ++ ".bak_" ++ ts) →
      (runMain env ts et args (some archive) fs).fs
          ((appPaths env args.dataDir app).2 ++ ".bak_" ++ ts) = some f ∧
      Msg.backedUp ((appPaths env args.dataDir app).2 ++ ".bak_" ++ ts)
        ∈ (runMain env ts et args (some archive) fs).stdout) := by
  refine ⟨backupExistingDb_none, ?_, ?_⟩
  · intro fs ts dbPath f h
    exact ⟨backupExistingDb_some fs ts dbPath f h, by simp [writeFile]⟩
  · intro env ts et args archive fs app f hdry hres hcand hfs hnc
    rcases hcs : dbCandidates (archive.map (fun e => e.name)) with _ | ⟨c, t⟩
    · exact absurd hcs hcand
    rw [runMain_restore env ts et args archive fs app hres hdry, restoreStep_eq]
    simp only [dbRestoreStep_write_some archive ts et
      (appPaths env args.dataDir app).2 fs c t f hcs hfs]
    have hbak : writeFile
        (writeFile fs ((appPaths env args.dataDir app).2 ++ ".bak_" ++ ts)
          f) (appPaths env args.dataDir app).2
        ⟨(extractedContent archive c).getD "", et⟩
        ((appPaths env args.dataDir app).2 ++ ".bak_" ++ ts) = some f := by
      unfold writeFile
      rw [if_neg (backupPath_ne (appPaths env args.dataDir app).2 ts), if_pos rfl]
    by_cases hst : storageSubtreeExists (archive.map (fun e => e.name)) = true
    · simp only [storageRestoreStep_copy archive et
        (appPaths env args.dataDir app).1 _ hst]
      refine ⟨?_, by simp⟩
      rw [copyStorage_frame archive _ et _ _ hnc]
      exact hbak
    · have hst' : storageSubtreeExists (archive.map (fun e => e.name)) = false := by
        simpa using hst
      simp only [storageRestoreStep_skip archive et
        (appPaths env args.dataDir app).1 _ hst']
      exact ⟨hbak, by simp⟩

/-- C2 witness: backing up an existing `/data/ps_crm.db` during a restore
of a non-colliding archive leaves `/data/ps_crm.db.bak_TS` with the
original bytes and metadata, and reports it. -/
theorem claim2_backup_before_overwrite_witness :
    fsOrig "/data/ps_crm.db" = some ⟨"ORIG", 3⟩ ∧
    backupExistingDb fsEmpty "TS" "/data/ps_crm.db" = (none, fsEmpty) ∧
    (runMain envA "TS" 7 (argsAuto false) (some arcPlain) fsOrig).fs
        "/data/ps_crm.db.bak_TS" = some ⟨"ORIG", 3⟩ ∧
    Msg.backedUp "/data/ps_crm.db.bak_TS"
      ∈ (runMain envA "TS" 7 (argsAuto false) (some arcPlain) fsOrig).stdout := by
  have h1 := claim2_backup_before_overwrite.1 fsEmpty "TS" "/data/ps_crm.db" rfl
  have h3 := claim2_backup_before_overwrite.2.2 envA "TS" 7 (argsAuto false)
    arcPlain fsOrig App.crm ⟨"ORIG", 3⟩ rfl rfl (by decide) (by decide) (by decide)
  exact ⟨by decide, h1, h3.1, h3.2⟩

/-- C5: in a non-dry-run restore with a storage subtree present, every
regular file of the extracted storage tree lands at its identical relative
path under the data directory with the extracted bytes and metadata,
directory entries are skipped, and the number of files copied is
reported. -/
theorem claim5_storage_copy (env : Env) (ts : String) (et : Nat) (args : Args)
    (archive : Archive) (fs : FS) (app : App)
    (hdry : args.dryRun = false)
    (hres : resolveApp args.app (archive.map (fun e => e.name)) = some app)
    (hst : storageSubtreeExists (archive.map (fun e => e.name)) = true) :
    (runMain env ts et args (some archive) fs).exitCode = 0 ∧
    Msg.restoredStorage (storageFileNames archive).length
        (appPaths env args.dataDir app).1
      ∈ (runMain env ts et args (some archive) fs).stdout ∧
    (∀ n ∈ storageFileNames archive,
      (runMain env ts et args (some archive) fs).fs
          (pjoin (appPaths env args.dataDir app).1 (strDrop n 8))
        = some ⟨(extractedContent archive n).getD "", et⟩) ∧
    (∀ n ∈ archive.map (fun e => e.name),
      strEndsWith n "/" = true → n ∉ storageFileNames archive) := by
  rw [runMain_restore env ts et args archive fs app hres hdry, restoreStep_eq]
  simp only [storageRestoreStep_copy archive et
    (appPaths env args.dataDir app).1 _ hst]
  refine ⟨trivial, by simp, ?_, ?_⟩
  · intro n hn
    exact copyStorage_mem archive _ et _ n hn
  · intro n _ hend hmem
    have hne := (mem_storageFileNames.mp hmem).2.2
    rw [hend] at hne
    cases hne

/-- C5 witness: the nested `storage/a/b.txt` of a CRM archive is restored
byte-for-byte to `/data/a/b.txt`, and the count of one copied file is
reported. -/
theorem claim5_storage_copy_witness :
    storageSubtreeExists (arcPlain.map (fun e => e.name)) = true ∧
    "storage/a/b.txt" ∈ storageFileNames arcPlain ∧
    ((runMain envA "TS" 7 (argsAuto false) (some arcPlain) fsEmpty).exitCode = 0 ∧
     Msg.restoredStorage 1 "/data"
       ∈ (runMain envA "TS" 7 (argsAuto false) (some arcPlain) fsEmpty).stdout ∧
     (runMain envA "TS" 7 (argsAuto false) (some arcPlain) fsEmpty).fs "/data/a/b.txt"
       = some ⟨"T", 7⟩) := by
  obtain ⟨h1, h2, h3, _⟩ := claim5_storage_copy envA "TS" 7 (argsAuto false)
    arcPlain fsEmpty App.crm rfl rfl (by decide)
  refine ⟨by decide, by decide, h1, ?_, ?_⟩
  · exact h2
  · exact (h3 "storage/a/b.txt" (by decide)).trans (by decide)

/-- C9: the temporary extraction directory and everything under it are
gone from the filesystem after the scoped restore block, on every exit
path: for every oracle of injected I/O failures (including a failing
extraction and failing copies) and every path inside the temporary
directory, the resulting filesystem holds nothing there. -/
theorem claim9_tmpdir_removed (oracle : IOOracle) (tmp : Path)
    (archive : Archive) (ts : String) (et : Nat) (dbPath dataDir : Path)
    (fs : FS) (p : Path) (hp : underTmp tmp p = true) :
    (runRestoreScoped oracle tmp archive ts et dbPath dataDir fs).2 p = none := by
  unfold runRestoreScoped withTempDir
  simp [hp]

/-- C9 witness: an extraction that fails after one entry leaves the block
by the error path with the entry extracted under `/tmp/x`, and the scoped
block still removes it. -/
theorem claim9_tmpdir_removed_witness :
    underTmp "/tmp/x" "/tmp/x/exports/ps_crm.sql" = true ∧
    (restoreBody ⟨1, fun _ => false⟩ "/tmp/x" arcPlain "TS" 7 "/data/ps_crm.db"
      "/data" fsEmpty).1 = true ∧
    (restoreBody ⟨1, fun _ => false⟩ "/tmp/x" arcPlain "TS" 7 "/data/ps_crm.db"
      "/data" fsEmpty).2 "/tmp/x/exports/ps_crm.sql" = some ⟨"x", 7⟩ ∧
    (runRestoreScoped ⟨1, fun _ => false⟩ "/tmp/x" arcPlain "TS" 7 "/data/ps_crm.db"
      "/data" fsEmpty).2 "/tmp/x/exports/ps_crm.sql" = none := by
  refine ⟨by decide, rfl, rfl, ?_⟩
  exact claim9_tmpdir_removed ⟨1, fun _ => false⟩ "/tmp/x" arcPlain "TS" 7
    "/data/ps_crm.db" "/data" fsEmpty "/tmp/x/exports/ps_crm.sql" (by decide)

end Restore
